import Mathlib

/-!
# Verification of the model-order selection engine and recognizer

Shallow embedding of `my_model_selectors.py` and `my_recognizer.py` from the
AIND-Recognizer repository.

Modelling conventions:
* A feature frame is an element of an abstract type `α`; a concatenated
  feature matrix is a `List α` and a length vector a `List ℕ`.
* The external generative-model trainer/scorer (hmmlearn's `GaussianHMM`)
  is an oracle: a `Trainer α Model` supplies `fit` (which may fail,
  returning `none`, matching the `except` path of `base_model`), `score`
  (which may fail, matching a raised exception from `model.score`), and
  the fitted model's feature dimensionality `n_features`.
* Log-likelihoods are modelled as rationals; `np.log` over the number of
  frames is an oracle `npLog : ℕ → ℚ` (its numeric value is irrelevant to
  the properties proved here, which are about data flow and formulas).
* Python `try/except` around a fallible call is modelled by matching on
  the `Option` result; an expression such as `self.base_model(n).score(...)`
  raises `AttributeError` when `base_model` returns `None`, which the
  enclosing `except` absorbs — modelled as `none` propagation.
* Python dicts (`self.words`, `self.hwords`, the model map) are ordered
  association lists, preserving insertion/iteration order.
-/

/-- The external trainer/scorer oracle (the `GaussianHMM` collaborator).
`fit X lengths n` attempts to fit a model with `n` states on the
concatenated matrix `X` with per-sequence `lengths`; `none` models the
exception path of `ModelSelector.base_model`.  `score m X lengths` is
`m.score(X, lengths)`, `none` modelling a raised exception.
`n_features m` is the attribute `m.n_features`. -/
structure Trainer (α Model : Type) where
  fit : List α → List ℕ → ℕ → Option Model
  score : Model → List α → List ℕ → Option ℚ
  n_features : Model → ℕ

/-- The state of a `ModelSelector` object after `__init__`
(`my_model_selectors.py`, lines 15–28): `words = all_word_sequences`,
`hwords = all_word_Xlengths`, `sequences = all_word_sequences[this_word]`,
`(X, lengths) = all_word_Xlengths[this_word]`, plus the configuration
numbers.  The constructor's lookups are recorded as the stored fields. -/
structure MS (α : Type) where
  words : List (String × List (List α))
  hwords : List (String × (List α × List ℕ))
  this_word : String
  sequences : List (List α)
  X : List α
  lengths : List ℕ
  n_constant : ℕ
  min_n : ℕ
  max_n : ℕ

/-- `ModelSelector.base_model(num_states)` (lines 33–48): fit a model on
the selector's own concatenated data `self.X, self.lengths`; on any
exception return `None`.  The `try/except` is absorbed into the oracle's
`Option` result. -/
def MS.base_model {α Model : Type} (s : MS α) (tr : Trainer α Model) (num_states : ℕ) :
    Option Model :=
  tr.fit s.X s.lengths num_states

/-- The candidate sweep `range(self.min_n_components, self.max_n_components + 1)`. -/
def MS.candidates {α : Type} (s : MS α) : List ℕ :=
  List.range' s.min_n (s.max_n + 1 - s.min_n)

/-- `SelectorConstant.select()` (lines 55–61): ignore the candidate range
and return `base_model(n_constant)`. -/
def selectConstant {α Model : Type} (s : MS α) (tr : Trainer α Model) : Option Model :=
  s.base_model tr s.n_constant

/-- `SelectorBIC.BIC_score(n)` (lines 70–79): fit at `n` (an
`AttributeError` on `model.n_features` when the fit returned `None`, or a
scoring failure, propagates to the caller's `except`, i.e. `none` here),
then `BIC = -2 * logL + p * log(N)` with `N = len(self.X)` the number of
frames, `d = model.n_features`, `p = n^2 + 2*d*n - 1`. -/
def BIC_score {α Model : Type} (s : MS α) (tr : Trainer α Model) (npLog : ℕ → ℚ)
    (n : ℕ) : Option (ℚ × Model) :=
  match s.base_model tr n with
  | none => none
  | some model =>
    match tr.score model s.X s.lengths with
    | none => none
    | some logL =>
      let logN : ℚ := npLog s.X.length
      let d : ℕ := tr.n_features model
      let p : ℚ := (n : ℚ) ^ 2 + 2 * (d : ℚ) * (n : ℚ) - 1
      some (-2 * logL + p * logN, model)

/-- The shape of the `SelectorBIC.select()` candidate loop (lines 90–99):
starting from `best_score = inf, best_model = None` (modelled as accumulator
`none`), each candidate whose criterion raises is skipped
(`except: continue`), and a successful candidate replaces the best exactly
when its score is strictly smaller (`score < best_score`; any first success
beats infinity). -/
def minStep {β : Type} (f : ℕ → Option (ℚ × β)) (acc : Option (ℚ × β)) (n : ℕ) :
    Option (ℚ × β) :=
  match f n with
  | none => acc
  | some (score, model) =>
    match acc with
    | none => some (score, model)
    | some (b, bm) => if score < b then some (score, model) else some (b, bm)

/-- The `SelectorBIC.select()` candidate loop as a fold of `minStep`. -/
def sweepMin {β : Type} (f : ℕ → Option (ℚ × β)) (cands : List ℕ) :
    Option (ℚ × β) :=
  cands.foldl (minStep f) none

/-- `SelectorBIC.select()` (lines 81–101) with the candidate list as an
explicit argument: sweep the candidates; return the best model if any, else
fall back to `base_model(n_constant)`. -/
def selectBICOn {α Model : Type} (s : MS α) (tr : Trainer α Model)
    (npLog : ℕ → ℚ) (cands : List ℕ) : Option Model :=
  match sweepMin (BIC_score s tr npLog) cands with
  | some (_, m) => some m
  | none => s.base_model tr s.n_constant

/-- `SelectorBIC.select()` (lines 81–101): the sweep runs over
`range(self.min_n_components, self.max_n_components + 1)`. -/
def selectBIC {α Model : Type} (s : MS α) (tr : Trainer α Model) (npLog : ℕ → ℚ) :
    Option Model :=
  selectBICOn s tr npLog s.candidates

/-- One iteration of `SelectorDIC.select()`'s inner loop (lines 127–135):
`ModelSelector(self.words, self.hwords, word, ...)` re-runs `__init__`, whose
lookups `words[word]` and `hwords[word]` may raise `KeyError`; then
`.base_model(n).score(X_word, lengths_word)` fits on the *other* word's own
data and scores the other word's own data under that model.  Any exception
(`KeyError`, `AttributeError` from a `None` model, scoring failure) reaches
the inner `except`, modelled here as `none`. -/
def crossScore {α Model : Type} (s : MS α) (tr : Trainer α Model) (w : String)
    (n : ℕ) : Option ℚ :=
  match List.lookup w s.words, List.lookup w s.hwords with
  | some _seqs, some (Xw, lw) =>
    match tr.fit Xw lw n with
    | none => none
    | some m => tr.score m Xw lw
  | _, _ => none

/-- One step of `SelectorDIC.select()`'s inner loop (lines 127–135) over the
running pair `(sum_log_P_X_all_but_i, M)`: a successful cross-score is added
to the sum; a failed one decrements `M`. -/
def DIC_step {α Model : Type} (s : MS α) (tr : Trainer α Model) (n : ℕ)
    (acc : ℚ × ℤ) (w : String) : ℚ × ℤ :=
  if w ≠ s.this_word then
    match crossScore s tr w n with
    | some v => (acc.1 + v, acc.2)
    | none => (acc.1, acc.2 - 1)
  else acc

/-- The body of `SelectorDIC.select()`'s outer `try` for one candidate `n`
(lines 120–137): `log_P_X_i = base_model(n).score(self.X, self.lengths)`;
`words = list(self.words.keys())`; `M = len(words)`;
`words.remove(self.this_word)` (raises `ValueError` when absent — outer
`except`); the inner loop (`DIC_step`) decrements `M` on each failed other
word; finally `DIC = log_P_X_i - sum / (M - 1)`, where a zero divisor
raises `ZeroDivisionError`, caught by the outer `except` — so the whole
candidate evaluates to `none`. -/
def DIC_candidate {α Model : Type} (s : MS α) (tr : Trainer α Model) (n : ℕ) :
    Option ℚ :=
  match s.base_model tr n with
  | none => none
  | some m =>
    match tr.score m s.X s.lengths with
    | none => none
    | some log_P_X_i =>
      let ws := s.words.map Prod.fst
      if s.this_word ∈ ws then
        let res := (ws.erase s.this_word).foldl (DIC_step s tr n)
          (0, (ws.length : ℤ))
        if res.2 - 1 = 0 then none
        else some (log_P_X_i - res.1 / ((res.2 - 1 : ℤ) : ℚ))
      else none

/-- The shared shape of the DIC and CV candidate sweeps: starting from
`best = None`, a candidate whose criterion fails is skipped, and a
successful one replaces the best exactly when
`best is None or best < value` (strict, so the earliest maximum wins).
The sweep records the best value and its state count. -/
def maxStep (f : ℕ → Option ℚ) (acc : Option (ℚ × ℕ)) (n : ℕ) : Option (ℚ × ℕ) :=
  match f n with
  | none => acc
  | some v =>
    match acc with
    | none => some (v, n)
    | some (b, bn) => if b < v then some (v, n) else some (b, bn)

/-- The DIC/CV candidate loop as a fold of `maxStep`. -/
def sweepMax (f : ℕ → Option ℚ) (cands : List ℕ) : Option (ℚ × ℕ) :=
  cands.foldl (maxStep f) none

/-- `SelectorDIC.select()` (lines 112–147) with the candidate list as an
explicit argument: sweep the candidates with `DIC_candidate`; re-fit via
`base_model(best_num_components)` when a best was found, else fall back to
`base_model(n_constant)`. -/
def selectDICOn {α Model : Type} (s : MS α) (tr : Trainer α Model)
    (cands : List ℕ) : Option Model :=
  match sweepMax (DIC_candidate s tr) cands with
  | none => s.base_model tr s.n_constant
  | some (_, bn) => s.base_model tr bn

/-- `SelectorDIC.select()` (lines 112–147): the sweep runs over
`range(self.min_n_components, self.max_n_components + 1)`. -/
def selectDIC {α Model : Type} (s : MS α) (tr : Trainer α Model) : Option Model :=
  selectDICOn s tr s.candidates

/-- sklearn's `KFold(n_splits=3, shuffle=False).split` on `m` samples
(`SelectorCV.select`, lines 167–168): the first `m % 3` test folds have
`m / 3 + 1` samples, the rest `m / 3`; test folds are contiguous index
ranges in order, and each train fold is the complement.  Yields
`(train_indices, test_indices)` pairs.  (The `ValueError` raised when
`m < 3` is handled at the call site.) -/
def kfold3 (m : ℕ) : List (List ℕ × List ℕ) :=
  let base := m / 3
  let extra := m % 3
  let size := fun (i : ℕ) => if i < extra then base + 1 else base
  let start := fun (i : ℕ) => i * base + min i extra
  (List.range 3).map (fun i =>
    let test := List.range' (start i) (size i)
    let train := (List.range m).filter (fun j => j < start i ∨ start i + size i ≤ j)
    (train, test))

/-- Modelled from the spec: `combine_sequences` (imported from `asl_utils`,
which is not under `src/`) concatenates the sequences selected by the given
index list into a matrix plus per-sequence lengths — spec section 4.5:
"concatenate the training-fold sequences into a matrix+lengths". -/
def combine_sequences {α : Type} (idx : List ℕ) (seqs : List (List α)) :
    List α × List ℕ :=
  ((idx.map (fun i => seqs.getD i [])).flatten,
    idx.map (fun i => (seqs.getD i []).length))

/-- One fold of `SelectorCV.select()`'s loop (lines 168–175):
`X, lengths = combine_sequences(cv_train, self.sequences)` builds the
*training*-fold data (`cv_test` is bound but never used), and
`self.base_model(n).score(X, lengths)` fits on the *full* class data
(`base_model` always uses `self.X, self.lengths`) and scores the
training-fold data; failures hit the inner `except` and leave the running
`(sum_logL, count_logL)` unchanged. -/
def CV_step {α Model : Type} (s : MS α) (tr : Trainer α Model) (n : ℕ)
    (acc : ℚ × ℕ) (fold : List ℕ × List ℕ) : ℚ × ℕ :=
  let Xl := combine_sequences fold.1 s.sequences
  match s.base_model tr n with
  | none => acc
  | some m =>
    match tr.score m Xl.1 Xl.2 with
    | none => acc
    | some v => (acc.1 + v, acc.2 + 1)

/-- The body of `SelectorCV.select()` for one candidate `n` (lines
163–180): `KFold(n_splits=3).split(self.sequences)` raises `ValueError`
when the class has fewer than 3 sequences (outer `except`, candidate
skipped); each fold runs `CV_step`; with at least one success the
candidate's value is `sum_logL / count_logL`, else the candidate is
skipped. -/
def CV_candidate {α Model : Type} (s : MS α) (tr : Trainer α Model) (n : ℕ) :
    Option ℚ :=
  if s.sequences.length < 3 then none
  else
    let res := (kfold3 s.sequences.length).foldl (CV_step s tr n) (0, 0)
    if 0 < res.2 then some (res.1 / (res.2 : ℚ)) else none

/-- `SelectorCV.select()` (lines 154–186) with the candidate list as an
explicit argument: sweep the candidates with `CV_candidate`; re-fit via
`base_model(best_num_components)` when a best was found, else fall back to
`base_model(n_constant)`. -/
def selectCVOn {α Model : Type} (s : MS α) (tr : Trainer α Model)
    (cands : List ℕ) : Option Model :=
  match sweepMax (CV_candidate s tr) cands with
  | none => s.base_model tr s.n_constant
  | some (_, bn) => s.base_model tr bn

/-- `SelectorCV.select()` (lines 154–186): the sweep runs over
`range(self.min_n_components, self.max_n_components + 1)`. -/
def selectCV {α Model : Type} (s : MS α) (tr : Trainer α Model) : Option Model :=
  selectCVOn s tr s.candidates

/-- Follows the spec's words (section 4.5), stated for comparison with
`CV_candidate`: "For each fold, concatenate the training-fold sequences
into a matrix+lengths, fit a model at state count n, then score the
held-out fold's concatenated matrix+lengths under that fold-specific
model; accumulate log-likelihood and a success count across folds." -/
def CV_candidate_specified {α Model : Type} (s : MS α) (tr : Trainer α Model)
    (n : ℕ) : Option ℚ :=
  if s.sequences.length < 3 then none
  else
    let res := (kfold3 s.sequences.length).foldl
      (fun (acc : ℚ × ℕ) fold =>
        let trainXl := combine_sequences fold.1 s.sequences
        let testXl := combine_sequences fold.2 s.sequences
        match tr.fit trainXl.1 trainXl.2 n with
        | none => acc
        | some m =>
          match tr.score m testXl.1 testXl.2 with
          | none => acc
          | some v => (acc.1 + v, acc.2 + 1))
      (0, 0)
    if 0 < res.2 then some (res.1 / (res.2 : ℚ)) else none

/-- Follows the claim's words, stated for comparison with `DIC_candidate`:
the anti-likelihood term for candidate `n` scores each other class's data
under the *target* class's model (the model fit at `n` on the target
class's data), with the same failure bookkeeping on `M`. -/
def DIC_candidate_claimed {α Model : Type} (s : MS α) (tr : Trainer α Model)
    (n : ℕ) : Option ℚ :=
  match s.base_model tr n with
  | none => none
  | some m =>
    match tr.score m s.X s.lengths with
    | none => none
    | some log_P_X_i =>
      let ws := s.words.map Prod.fst
      if s.this_word ∈ ws then
        let res := (ws.erase s.this_word).foldl
          (fun (acc : ℚ × ℤ) w =>
            if w ≠ s.this_word then
              match
                (match List.lookup w s.hwords with
                 | some (Xw, lw) => tr.score m Xw lw
                 | none => none) with
              | some v => (acc.1 + v, acc.2)
              | none => (acc.1, acc.2 - 1)
            else acc)
          (0, (ws.length : ℤ))
        if res.2 - 1 = 0 then none
        else some (log_P_X_i - res.1 / ((res.2 - 1 : ℤ) : ℚ))
      else none

/-- A trainer oracle whose `fit` is indexed by the invocation count within
one `select()` call.  `hmmlearn`'s fit is not promised to return the same
object on two invocations with the same arguments, and `SelectorDIC` /
`SelectorCV` re-invoke `base_model` at the end of `select()`; this variant
makes the distinct invocations observable.  `fitAt k X lengths n` is the
`k`-th `base_model`-style fit performed by the call. -/
structure TrainerSeq (α Model : Type) where
  fitAt : ℕ → List α → List ℕ → ℕ → Option Model
  score : Model → List α → List ℕ → Option ℚ

/-- `crossScore` with the invocation-indexed oracle: returns the cross
score together with the next invocation counter (a `KeyError` in the inner
`ModelSelector.__init__` happens before any fit, consuming no
invocation). -/
def crossScoreAt {α Model : Type} (s : MS α) (tq : TrainerSeq α Model) (k : ℕ)
    (w : String) (n : ℕ) : Option ℚ × ℕ :=
  match List.lookup w s.words, List.lookup w s.hwords with
  | some _seqs, some (Xw, lw) =>
    match tq.fitAt k Xw lw n with
    | none => (none, k + 1)
    | some m => (tq.score m Xw lw, k + 1)
  | _, _ => (none, k)

/-- `DIC_candidate` with the invocation-indexed oracle, threading the
invocation counter: the own-class fit is one invocation; each other word
that reaches its `base_model` call consumes one more. -/
def DIC_candidate_seq {α Model : Type} (s : MS α) (tq : TrainerSeq α Model)
    (k : ℕ) (n : ℕ) : Option ℚ × ℕ :=
  match tq.fitAt k s.X s.lengths n with
  | none => (none, k + 1)
  | some m =>
    match tq.score m s.X s.lengths with
    | none => (none, k + 1)
    | some log_P_X_i =>
      let ws := s.words.map Prod.fst
      if s.this_word ∈ ws then
        let res := (ws.erase s.this_word).foldl
          (fun (acc : ℚ × ℤ × ℕ) w =>
            if w ≠ s.this_word then
              match crossScoreAt s tq acc.2.2 w n with
              | (some v, k2) => (acc.1 + v, acc.2.1, k2)
              | (none, k2) => (acc.1, acc.2.1 - 1, k2)
            else acc)
          (0, (ws.length : ℤ), k + 1)
        if res.2.1 - 1 = 0 then (none, res.2.2)
        else (some (log_P_X_i - res.1 / ((res.2.1 - 1 : ℤ) : ℚ)), res.2.2)
      else (none, k + 1)

/-- The `SelectorDIC.select()` candidate sweep with the invocation-indexed
oracle: returns the best `(DIC, n)` (if any) and the final invocation
counter. -/
def sweepDIC_seq {α Model : Type} (s : MS α) (tq : TrainerSeq α Model)
    (cands : List ℕ) : Option (ℚ × ℕ) × ℕ :=
  cands.foldl
    (fun (acc : Option (ℚ × ℕ) × ℕ) n =>
      match DIC_candidate_seq s tq acc.2 n with
      | (none, k2) => (acc.1, k2)
      | (some dic, k2) =>
        match acc.1 with
        | none => (some (dic, n), k2)
        | some (b, bn) => (if b < dic then some (dic, n) else some (b, bn), k2))
    (none, 0)

/-- `SelectorDIC.select()` (lines 112–147) with the invocation-indexed
oracle: after the sweep, lines 144–147 perform one final fresh
`base_model` invocation — at `n_constant` when no candidate survived, else
at the winning state count — and return its result directly. -/
def selectDIC_seq {α Model : Type} (s : MS α) (tq : TrainerSeq α Model) :
    Option Model :=
  match sweepDIC_seq s tq s.candidates with
  | (none, k) => tq.fitAt k s.X s.lengths s.n_constant
  | (some (_, bn), k) => tq.fitAt k s.X s.lengths bn

/-- `CV_candidate` with the invocation-indexed oracle: a candidate skipped
by the `KFold` `ValueError` consumes no invocation; otherwise each fold
performs one `base_model` invocation (on the full class data). -/
def CV_candidate_seq {α Model : Type} (s : MS α) (tq : TrainerSeq α Model)
    (k : ℕ) (n : ℕ) : Option ℚ × ℕ :=
  if s.sequences.length < 3 then (none, k)
  else
    let res := (kfold3 s.sequences.length).foldl
      (fun (acc : ℚ × ℕ × ℕ) fold =>
        let Xl := combine_sequences fold.1 s.sequences
        match tq.fitAt acc.2.2 s.X s.lengths n with
        | none => (acc.1, acc.2.1, acc.2.2 + 1)
        | some m =>
          match tq.score m Xl.1 Xl.2 with
          | none => (acc.1, acc.2.1, acc.2.2 + 1)
          | some v => (acc.1 + v, acc.2.1 + 1, acc.2.2 + 1))
      (0, 0, k)
    (if 0 < res.2.1 then some (res.1 / (res.2.1 : ℚ)) else none, res.2.2)

/-- The `SelectorCV.select()` candidate sweep with the invocation-indexed
oracle. -/
def sweepCV_seq {α Model : Type} (s : MS α) (tq : TrainerSeq α Model)
    (cands : List ℕ) : Option (ℚ × ℕ) × ℕ :=
  cands.foldl
    (fun (acc : Option (ℚ × ℕ) × ℕ) n =>
      match CV_candidate_seq s tq acc.2 n with
      | (none, k2) => (acc.1, k2)
      | (some v, k2) =>
        match acc.1 with
        | none => (some (v, n), k2)
        | some (b, bn) => (if b < v then some (v, n) else some (b, bn), k2))
    (none, 0)

/-- `SelectorCV.select()` (lines 154–186) with the invocation-indexed
oracle: lines 183–186 perform one final fresh `base_model` invocation and
return its result directly. -/
def selectCV_seq {α Model : Type} (s : MS α) (tq : TrainerSeq α Model) :
    Option Model :=
  match sweepCV_seq s tq s.candidates with
  | (none, k) => tq.fitAt k s.X s.lengths s.n_constant
  | (some (_, bn), k) => tq.fitAt k s.X s.lengths bn

/-- The inner loop of `recognize` for one test item (`my_recognizer.py`,
lines 26–39): walk the model map in iteration order with running
`max_score` (initially `float("-inf")`, modelled as `⊥ : WithBot ℚ`) and
`best_guess` (initially `None`); a successful score is recorded in the
per-item mapping and replaces the best guess exactly when
`word_score > max_score` (strict); a failed score records
`float("-inf")` (`⊥`) and leaves the running maximum and guess untouched.
Returns the per-item mapping (in map order) and the final guess. -/
def scoreItem {α Model : Type} (tr : Trainer α Model) (X : List α)
    (lengths : List ℕ) :
    List (String × Model) → WithBot ℚ → Option String →
      List (String × WithBot ℚ) × Option String
  | [], _, best_guess => ([], best_guess)
  | (word, model) :: rest, max_score, best_guess =>
    match tr.score model X lengths with
    | some word_score =>
      if max_score < (word_score : WithBot ℚ) then
        let r := scoreItem tr X lengths rest (word_score : WithBot ℚ) (some word)
        ((word, (word_score : WithBot ℚ)) :: r.1, r.2)
      else
        let r := scoreItem tr X lengths rest max_score best_guess
        ((word, (word_score : WithBot ℚ)) :: r.1, r.2)
    | none =>
      let r := scoreItem tr X lengths rest max_score best_guess
      ((word, (⊥ : WithBot ℚ)) :: r.1, r.2)

/-- `recognize(models, test_set)` (lines 4–44): for each test item of
`test_set.get_all_Xlengths()` in index order, build the per-item
label→log-likelihood mapping and the best-guess label; return
`(probabilities, guesses)`, both index-aligned. -/
def recognize {α Model : Type} (models : List (String × Model))
    (tr : Trainer α Model) (test_items : List (List α × List ℕ)) :
    List (List (String × WithBot ℚ)) × List (Option String) :=
  let per := test_items.map (fun it => scoreItem tr it.1 it.2 models ⊥ none)
  (per.map Prod.fst, per.map Prod.snd)

/-- The value `recognize` records for one class on one item: the
log-likelihood on success, `float("-inf")` (`⊥`) when `model.score`
raises. -/
def scoreVal {α Model : Type} (tr : Trainer α Model) (X : List α)
    (lengths : List ℕ) (p : String × Model) : WithBot ℚ :=
  match tr.score p.2 X lengths with
  | some v => (v : WithBot ℚ)
  | none => ⊥

/-- The maximal recorded value over the model map for one item (`⊥` when
the map is empty or every class fails to score). -/
def maxVals {α Model : Type} (tr : Trainer α Model) (X : List α)
    (lengths : List ℕ) (models : List (String × Model)) : WithBot ℚ :=
  (models.map (scoreVal tr X lengths)).foldr max ⊥

/-!
## Concrete fixtures

Small concrete datasets and oracles used by the closed evaluations below.
Frames and models are both rationals: a fitted model is `sum(X) + n`, so it
records the data it was fitted on and the state count it was fitted at.
-/

/-- A two-word dataset: target word `"A"` with the single one-frame
sequence `[1]`, other word `"B"` with `[2]`; candidate range `[2, 3]`,
default state count 3. -/
def msAB : MS ℚ :=
  { words := [("A", [[1]]), ("B", [[2]])]
  , hwords := [("A", ([1], [1])), ("B", ([2], [1]))]
  , this_word := "A"
  , sequences := [[1]]
  , X := [1]
  , lengths := [1]
  , n_constant := 3
  , min_n := 2
  , max_n := 3 }

/-- A one-word dataset whose target word `"A"` has three one-frame
sequences (so 3-fold cross-validation applies); the single candidate is
`n = 2`. -/
def msCV : MS ℚ :=
  { words := [("A", [[1], [2], [3]])]
  , hwords := [("A", ([1, 2, 3], [1, 1, 1]))]
  , this_word := "A"
  , sequences := [[1], [2], [3]]
  , X := [1, 2, 3]
  , lengths := [1, 1, 1]
  , n_constant := 3
  , min_n := 2
  , max_n := 2 }

/-- Like `msAB` but `hwords` lacks word `"B"`, so every cross-score for the
only other word fails (the inner `ModelSelector.__init__` raises
`KeyError`). -/
def msC7 : MS ℚ :=
  { words := [("A", [[1]]), ("B", [[2]])]
  , hwords := [("A", ([1], [1]))]
  , this_word := "A"
  , sequences := [[1]]
  , X := [1]
  , lengths := [1]
  , n_constant := 3
  , min_n := 2
  , max_n := 3 }

/-- An always-succeeding oracle: the fitted model is `sum(X) + n`, a score
is `100 * model + sum(X)`, and every model reports 2 features. -/
def trSum : Trainer ℚ ℚ :=
  { fit := fun X _ n => some (X.sum + n)
  , score := fun m X _ => some (100 * m + X.sum)
  , n_features := fun _ => 2 }

/-- An always-succeeding oracle whose score is `model² + sum(X)` (so that
distinct state counts give distinct criteria on the fixtures). -/
def trSq : Trainer ℚ ℚ :=
  { fit := fun X _ n => some (X.sum + n)
  , score := fun m X _ => some (m ^ 2 + X.sum)
  , n_features := fun _ => 2 }

/-- An oracle whose fit succeeds only at state count 1 (the fixtures'
candidate ranges start at 2, so every candidate fails but a fallback at
`n_constant = 1` succeeds). -/
def trOnly1 : Trainer ℚ ℚ :=
  { fit := fun X _ n => if n = 1 then some (X.sum + n) else none
  , score := fun m X _ => some (m ^ 2 + X.sum)
  , n_features := fun _ => 2 }

/-- An oracle whose fit fails exactly at state count 2. -/
def trNot2 : Trainer ℚ ℚ :=
  { fit := fun X _ n => if n = 2 then none else some (X.sum + n)
  , score := fun m X _ => some (m ^ 2 + X.sum)
  , n_features := fun _ => 2 }

/-- A recognition oracle: a model *is* its score, and the model `0` fails
to score anything. -/
def trRec : Trainer ℚ ℚ :=
  { fit := fun _ _ _ => none
  , score := fun m _ _ => if m = 0 then none else some m
  , n_features := fun _ => 0 }

/-- An invocation-indexed oracle for `msAB`: the first four fit invocations
succeed (as `sum(X) + n`), later ones fail. -/
def tqAB : TrainerSeq ℚ ℚ :=
  { fitAt := fun k X _ n => if k ≤ 3 then some (X.sum + n) else none
  , score := fun m X _ => some (m ^ 2 + X.sum) }

/-- An invocation-indexed oracle for `msCV`: the first three fit
invocations succeed, later ones fail. -/
def tqCV : TrainerSeq ℚ ℚ :=
  { fitAt := fun k X _ n => if k ≤ 2 then some (X.sum + n) else none
  , score := fun m X _ => some (100 * m + X.sum) }

/-- A stand-in for `np.log` on frame counts; the properties proved here
never depend on its values. -/
def LQ : ℕ → ℚ := fun N => (N : ℚ)

/-- The `msAB` fixture with default state count 1 (used with `trOnly1`:
every candidate fails, the fallback succeeds). -/
def msAB1 : MS ℚ :=
  { msAB with n_constant := 1 }

/-- A model map for recognition: `"A"` scores 5, `"B"` and `"C"` tie at 7,
`"D"` fails to score (model 0). -/
def modelsRec : List (String × ℚ) :=
  [("A", 5), ("B", 7), ("C", 7), ("D", 0)]

/-!
## Helper lemmas about the candidate sweeps
-/

lemma minStep_of_none {β : Type} {f : ℕ → Option (ℚ × β)} {n : ℕ}
    (h : f n = none) (acc : Option (ℚ × β)) : minStep f acc n = acc := by
  simp [minStep, h]

lemma maxStep_of_none {f : ℕ → Option ℚ} {n : ℕ}
    (h : f n = none) (acc : Option (ℚ × ℕ)) : maxStep f acc n = acc := by
  simp [maxStep, h]

lemma foldl_minStep_of_none {β : Type} {f : ℕ → Option (ℚ × β)} :
    ∀ (cands : List ℕ) (acc : Option (ℚ × β)),
      (∀ n ∈ cands, f n = none) → cands.foldl (minStep f) acc = acc
  | [], _, _ => rfl
  | c :: rest, acc, h => by
    rw [List.foldl_cons, minStep_of_none (h c (by simp))]
    exact foldl_minStep_of_none rest acc (fun n hn => h n (by simp [hn]))

lemma sweepMin_eq_none {β : Type} {f : ℕ → Option (ℚ × β)} {cands : List ℕ}
    (h : ∀ n ∈ cands, f n = none) : sweepMin f cands = none :=
  foldl_minStep_of_none cands none h

lemma foldl_maxStep_of_none {f : ℕ → Option ℚ} :
    ∀ (cands : List ℕ) (acc : Option (ℚ × ℕ)),
      (∀ n ∈ cands, f n = none) → cands.foldl (maxStep f) acc = acc
  | [], _, _ => rfl
  | c :: rest, acc, h => by
    rw [List.foldl_cons, maxStep_of_none (h c (by simp))]
    exact foldl_maxStep_of_none rest acc (fun n hn => h n (by simp [hn]))

lemma sweepMax_eq_none {f : ℕ → Option ℚ} {cands : List ℕ}
    (h : ∀ n ∈ cands, f n = none) : sweepMax f cands = none :=
  foldl_maxStep_of_none cands none h

lemma foldl_minStep_filter {β : Type} {f : ℕ → Option (ℚ × β)} {n0 : ℕ}
    (h : f n0 = none) :
    ∀ (cands : List ℕ) (acc : Option (ℚ × β)),
      cands.foldl (minStep f) acc
        = (cands.filter (fun k => decide (k ≠ n0))).foldl (minStep f) acc
  | [], _ => rfl
  | c :: rest, acc => by
    by_cases hc : c = n0
    · subst hc
      rw [List.foldl_cons, minStep_of_none h]
      have : (c :: rest).filter (fun k => decide (k ≠ c))
          = rest.filter (fun k => decide (k ≠ c)) := by simp
      rw [this]
      exact foldl_minStep_filter h rest acc
    · have : (c :: rest).filter (fun k => decide (k ≠ n0))
          = c :: rest.filter (fun k => decide (k ≠ n0)) := by simp [hc]
      rw [this, List.foldl_cons, List.foldl_cons]
      exact foldl_minStep_filter h rest (minStep f acc c)

lemma sweepMin_filter {β : Type} {f : ℕ → Option (ℚ × β)} {n0 : ℕ}
    (h : f n0 = none) (cands : List ℕ) :
    sweepMin f cands = sweepMin f (cands.filter (fun k => decide (k ≠ n0))) :=
  foldl_minStep_filter h cands none

lemma foldl_maxStep_filter {f : ℕ → Option ℚ} {n0 : ℕ} (h : f n0 = none) :
    ∀ (cands : List ℕ) (acc : Option (ℚ × ℕ)),
      cands.foldl (maxStep f) acc
        = (cands.filter (fun k => decide (k ≠ n0))).foldl (maxStep f) acc
  | [], _ => rfl
  | c :: rest, acc => by
    by_cases hc : c = n0
    · subst hc
      rw [List.foldl_cons, maxStep_of_none h]
      have : (c :: rest).filter (fun k => decide (k ≠ c))
          = rest.filter (fun k => decide (k ≠ c)) := by simp
      rw [this]
      exact foldl_maxStep_filter h rest acc
    · have : (c :: rest).filter (fun k => decide (k ≠ n0))
          = c :: rest.filter (fun k => decide (k ≠ n0)) := by simp [hc]
      rw [this, List.foldl_cons, List.foldl_cons]
      exact foldl_maxStep_filter h rest (maxStep f acc c)

lemma sweepMax_filter {f : ℕ → Option ℚ} {n0 : ℕ} (h : f n0 = none)
    (cands : List ℕ) :
    sweepMax f cands = sweepMax f (cands.filter (fun k => decide (k ≠ n0))) :=
  foldl_maxStep_filter h cands none

lemma foldl_minStep_stay {β : Type} {f : ℕ → Option (ℚ × β)} {v : ℚ} {m : β} :
    ∀ (cands : List ℕ),
      (∀ n ∈ cands, ∀ p, f n = some p → ¬ p.1 < v) →
      cands.foldl (minStep f) (some (v, m)) = some (v, m)
  | [], _ => rfl
  | c :: rest, h => by
    have hstep : minStep f (some (v, m)) c = some (v, m) := by
      cases hfc : f c with
      | none => simp [minStep, hfc]
      | some p =>
        have hnlt := h c (by simp) p hfc
        cases p with
        | mk sc md => simp [minStep, hfc, if_neg hnlt]
    rw [List.foldl_cons, hstep]
    exact foldl_minStep_stay rest (fun n hn => h n (by simp [hn]))

lemma foldl_minStep_argmin {β : Type} {f : ℕ → Option (ℚ × β)} {v : ℚ} {m : β}
    {b : ℕ} :
    ∀ (cands : List ℕ) (acc : Option (ℚ × β)),
      (acc = none ∨ ∃ w mm, acc = some (w, mm) ∧ v < w) →
      b ∈ cands → f b = some (v, m) →
      (∀ n ∈ cands, n ≠ b → ∀ p, f n = some p → v < p.1) →
      cands.foldl (minStep f) acc = some (v, m)
  | [], _, _, hb, _, _ => absurd hb (List.not_mem_nil b)
  | c :: rest, acc, hacc, hb, hfb, hlt => by
    by_cases hc : c = b
    · subst hc
      have hstep : minStep f acc c = some (v, m) := by
        rcases hacc with h0 | ⟨w, mm, h1, hvw⟩
        · simp [minStep, hfb, h0]
        · simp [minStep, hfb, h1, if_pos hvw]
      rw [List.foldl_cons, hstep]
      refine foldl_minStep_stay rest (fun n hn p hp => ?_)
      by_cases hnb : n = c
      · subst hnb
        rw [hfb] at hp
        cases hp
        exact lt_irrefl v
      · exact asymm (hlt n (by simp [hn]) hnb p hp)
    · have hbr : b ∈ rest := by
        rcases List.mem_cons.mp hb with h | h
        · exact absurd h.symm hc
        · exact h
      refine foldl_minStep_argmin rest (minStep f acc c) ?_ hbr hfb
        (fun n hn hnb p hp => hlt n (by simp [hn]) hnb p hp)
      cases hfc : f c with
      | none => rw [minStep_of_none hfc]; exact hacc
      | some p =>
        have hvp : v < p.1 := hlt c (by simp) hc p hfc
        rcases hacc with h0 | ⟨w, mm, h1, hvw⟩
        · subst h0
          cases p with
          | mk sc md => exact Or.inr ⟨sc, md, by simp [minStep, hfc], hvp⟩
        · subst h1
          cases p with
          | mk sc md =>
            by_cases hsw : sc < w
            · exact Or.inr ⟨sc, md, by simp [minStep, hfc, if_pos hsw], hvp⟩
            · exact Or.inr ⟨w, mm, by simp [minStep, hfc, if_neg hsw], hvw⟩

lemma sweepMin_argmin {β : Type} {f : ℕ → Option (ℚ × β)} {v : ℚ} {m : β}
    {b : ℕ} {cands : List ℕ} (hb : b ∈ cands) (hfb : f b = some (v, m))
    (hlt : ∀ n ∈ cands, n ≠ b → ∀ p, f n = some p → v < p.1) :
    sweepMin f cands = some (v, m) :=
  foldl_minStep_argmin cands none (Or.inl rfl) hb hfb hlt

lemma foldl_maxStep_stay {f : ℕ → Option ℚ} {v : ℚ} {b : ℕ} :
    ∀ (cands : List ℕ),
      (∀ n ∈ cands, ∀ w, f n = some w → ¬ v < w) →
      cands.foldl (maxStep f) (some (v, b)) = some (v, b)
  | [], _ => rfl
  | c :: rest, h => by
    have hstep : maxStep f (some (v, b)) c = some (v, b) := by
      cases hfc : f c with
      | none => simp [maxStep, hfc]
      | some w =>
        have hnlt := h c (by simp) w hfc
        simp [maxStep, hfc, if_neg hnlt]
    rw [List.foldl_cons, hstep]
    exact foldl_maxStep_stay rest (fun n hn => h n (by simp [hn]))

lemma foldl_maxStep_argmax {f : ℕ → Option ℚ} {v : ℚ} {b : ℕ} :
    ∀ (cands : List ℕ) (acc : Option (ℚ × ℕ)),
      (acc = none ∨ ∃ w bn, acc = some (w, bn) ∧ w < v) →
      b ∈ cands → f b = some v →
      (∀ n ∈ cands, n ≠ b → ∀ w, f n = some w → w < v) →
      cands.foldl (maxStep f) acc = some (v, b)
  | [], _, _, hb, _, _ => absurd hb (List.not_mem_nil b)
  | c :: rest, acc, hacc, hb, hfb, hlt => by
    by_cases hc : c = b
    · subst hc
      have hstep : maxStep f acc c = some (v, c) := by
        rcases hacc with h0 | ⟨w, bn, h1, hwv⟩
        · simp [maxStep, hfb, h0]
        · simp [maxStep, hfb, h1, if_pos hwv]
      rw [List.foldl_cons, hstep]
      refine foldl_maxStep_stay rest (fun n hn w hw => ?_)
      by_cases hnb : n = c
      · subst hnb
        rw [hfb] at hw
        cases hw
        exact lt_irrefl v
      · exact asymm (hlt n (by simp [hn]) hnb w hw)
    · have hbr : b ∈ rest := by
        rcases List.mem_cons.mp hb with h | h
        · exact absurd h.symm hc
        · exact h
      refine foldl_maxStep_argmax rest (maxStep f acc c) ?_ hbr hfb
        (fun n hn hnb w hw => hlt n (by simp [hn]) hnb w hw)
      cases hfc : f c with
      | none => rw [maxStep_of_none hfc]; exact hacc
      | some w =>
        have hwv : w < v := hlt c (by simp) hc w hfc
        rcases hacc with h0 | ⟨u, bn, h1, huv⟩
        · subst h0
          exact Or.inr ⟨w, c, by simp [maxStep, hfc], hwv⟩
        · subst h1
          by_cases huw : u < w
          · exact Or.inr ⟨w, c, by simp [maxStep, hfc, if_pos huw], hwv⟩
          · exact Or.inr ⟨u, bn, by simp [maxStep, hfc, if_neg huw], huv⟩

lemma sweepMax_argmax {f : ℕ → Option ℚ} {v : ℚ} {b : ℕ} {cands : List ℕ}
    (hb : b ∈ cands) (hfb : f b = some v)
    (hlt : ∀ n ∈ cands, n ≠ b → ∀ w, f n = some w → w < v) :
    sweepMax f cands = some (v, b) :=
  foldl_maxStep_argmax cands none (Or.inl rfl) hb hfb hlt

/-!
## Helper lemmas about the recognizer loop
-/

lemma scoreItem_fst {α Model : Type} (tr : Trainer α Model) (X : List α)
    (l : List ℕ) :
    ∀ (models : List (String × Model)) (mx : WithBot ℚ) (g : Option String),
      (scoreItem tr X l models mx g).1
        = models.map (fun p => (p.1, scoreVal tr X l p))
  | [], _, _ => rfl
  | (w, m) :: rest, mx, g => by
    cases hs : tr.score m X l with
    | some v =>
      by_cases hlt : mx < (v : WithBot ℚ)
      · simp [scoreItem, hs, if_pos hlt, scoreVal, scoreItem_fst tr X l rest]
      · simp [scoreItem, hs, if_neg hlt, scoreVal, scoreItem_fst tr X l rest]
    | none => simp [scoreItem, hs, scoreVal, scoreItem_fst tr X l rest]

lemma maxVals_cons {α Model : Type} (tr : Trainer α Model) (X : List α)
    (l : List ℕ) (p : String × Model) (rest : List (String × Model)) :
    maxVals tr X l (p :: rest) = max (scoreVal tr X l p) (maxVals tr X l rest) :=
  rfl

lemma scoreItem_snd {α Model : Type} (tr : Trainer α Model) (X : List α)
    (l : List ℕ) :
    ∀ (models : List (String × Model)) (mx : WithBot ℚ) (g : Option String),
      (scoreItem tr X l models mx g).2 =
        if maxVals tr X l models ≤ mx then g
        else (models.find?
          (fun p => decide (scoreVal tr X l p = maxVals tr X l models))).map
            Prod.fst
  | [], mx, g => by
    simp [scoreItem, maxVals]
  | (w, m) :: rest, mx, g => by
    have hsv : scoreVal tr X l (w, m)
        = (match tr.score m X l with
           | some v => (v : WithBot ℚ)
           | none => ⊥) := rfl
    cases hs : tr.score m X l with
    | some v =>
      have hv : scoreVal tr X l (w, m) = (v : WithBot ℚ) := by rw [hsv, hs]
      by_cases hlt : mx < (v : WithBot ℚ)
      · have hL : (scoreItem tr X l ((w, m) :: rest) mx g).2
            = (scoreItem tr X l rest (v : WithBot ℚ) (some w)).2 := by
          simp [scoreItem, hs, if_pos hlt]
        rw [hL, scoreItem_snd tr X l rest (v : WithBot ℚ) (some w),
          maxVals_cons, hv]
        have hnle : ¬ max ((v : WithBot ℚ)) (maxVals tr X l rest) ≤ mx := by
          intro hle
          exact absurd (le_trans (le_max_left _ _) hle) (not_le_of_lt hlt)
        rw [if_neg hnle]
        by_cases hmv : maxVals tr X l rest ≤ (v : WithBot ℚ)
        · rw [if_pos hmv, max_eq_left hmv]
          have hfind : ((w, m) :: rest).find?
              (fun p => decide (scoreVal tr X l p = (v : WithBot ℚ)))
                = some (w, m) :=
            List.find?_cons_of_pos _ (by simp [hv])
          rw [hfind]
          rfl
        · have hvlt : (v : WithBot ℚ) < maxVals tr X l rest := lt_of_not_le hmv
          rw [if_neg hmv, max_eq_right (le_of_lt hvlt)]
          have hfind : ((w, m) :: rest).find?
              (fun p => decide (scoreVal tr X l p = maxVals tr X l rest))
                = rest.find?
              (fun p => decide (scoreVal tr X l p = maxVals tr X l rest)) :=
            List.find?_cons_of_neg _ (by simp [hv]; exact ne_of_lt hvlt)
          rw [hfind]
      · have hvle : (v : WithBot ℚ) ≤ mx := le_of_not_lt hlt
        have hL : (scoreItem tr X l ((w, m) :: rest) mx g).2
            = (scoreItem tr X l rest mx g).2 := by
          simp [scoreItem, hs, if_neg hlt]
        rw [hL, scoreItem_snd tr X l rest mx g, maxVals_cons, hv]
        by_cases hmr : maxVals tr X l rest ≤ mx
        · rw [if_pos hmr, if_pos (max_le hvle hmr)]
        · have hmx : mx < maxVals tr X l rest := lt_of_not_le hmr
          have hvr : (v : WithBot ℚ) < maxVals tr X l rest :=
            lt_of_le_of_lt hvle hmx
          have hmax : max ((v : WithBot ℚ)) (maxVals tr X l rest)
              = maxVals tr X l rest := max_eq_right (le_of_lt hvr)
          rw [if_neg hmr, hmax]
          have hnle : ¬ maxVals tr X l rest ≤ mx := hmr
          rw [if_neg hnle]
          have hfind : ((w, m) :: rest).find?
              (fun p => decide (scoreVal tr X l p = maxVals tr X l rest))
                = rest.find?
              (fun p => decide (scoreVal tr X l p = maxVals tr X l rest)) :=
            List.find?_cons_of_neg _ (by simp [hv]; exact ne_of_lt hvr)
          rw [hfind]
    | none =>
      have hv : scoreVal tr X l (w, m) = (⊥ : WithBot ℚ) := by rw [hsv, hs]
      have hL : (scoreItem tr X l ((w, m) :: rest) mx g).2
          = (scoreItem tr X l rest mx g).2 := by
        simp [scoreItem, hs]
      rw [hL, scoreItem_snd tr X l rest mx g, maxVals_cons, hv]
      by_cases hmr : maxVals tr X l rest ≤ mx
      · rw [if_pos hmr, if_pos (max_le bot_le hmr)]
      · have hmx : mx < maxVals tr X l rest := lt_of_not_le hmr
        have hbot : (⊥ : WithBot ℚ) < maxVals tr X l rest :=
          lt_of_le_of_lt bot_le hmx
        have hmax : max (⊥ : WithBot ℚ) (maxVals tr X l rest)
            = maxVals tr X l rest := max_eq_right bot_le
        rw [if_neg hmr, hmax, if_neg hmr]
        have hfind : ((w, m) :: rest).find?
            (fun p => decide (scoreVal tr X l p = maxVals tr X l rest))
              = rest.find?
            (fun p => decide (scoreVal tr X l p = maxVals tr X l rest)) :=
          List.find?_cons_of_neg _ (by simp [hv]; exact ne_of_lt hbot)
        rw [hfind]

lemma maxVals_eq_bot_of_all_fail {α Model : Type} {tr : Trainer α Model}
    {X : List α} {l : List ℕ} :
    ∀ {models : List (String × Model)},
      (∀ p ∈ models, tr.score p.2 X l = none) → maxVals tr X l models = ⊥
  | [], _ => rfl
  | p :: rest, h => by
    have hp : scoreVal tr X l p = ⊥ := by
      have := h p (by simp)
      simp [scoreVal, this]
    rw [maxVals_cons, hp, maxVals_eq_bot_of_all_fail (fun q hq => h q (by simp [hq]))]
    simp

/-!
## Helper lemmas about the DIC inner loop and the CV fold loop
-/

lemma DIC_fold_success {α Model : Type} {s : MS α} {tr : Trainer α Model}
    {n : ℕ} {g : String → ℚ} :
    ∀ (l : List String) (a : ℚ) (b : ℤ),
      (∀ w ∈ l, w ≠ s.this_word) →
      (∀ w ∈ l, crossScore s tr w n = some (g w)) →
      l.foldl (DIC_step s tr n) (a, b) = (a + (l.map g).sum, b)
  | [], a, b, _, _ => by simp
  | w :: rest, a, b, hne, hs => by
    have hw : DIC_step s tr n (a, b) w = (a + g w, b) := by
      simp [DIC_step, if_pos (hne w (by simp)), hs w (by simp)]
    rw [List.foldl_cons, hw,
      DIC_fold_success rest (a + g w) b (fun x hx => hne x (by simp [hx]))
        (fun x hx => hs x (by simp [hx]))]
    simp [add_assoc]

lemma DIC_fold_fail {α Model : Type} {s : MS α} {tr : Trainer α Model}
    {n : ℕ} :
    ∀ (l : List String) (a : ℚ) (b : ℤ),
      (∀ w ∈ l, w ≠ s.this_word) →
      (∀ w ∈ l, crossScore s tr w n = none) →
      l.foldl (DIC_step s tr n) (a, b) = (a, b - l.length)
  | [], a, b, _, _ => by simp
  | w :: rest, a, b, hne, hs => by
    have hw : DIC_step s tr n (a, b) w = (a, b - 1) := by
      simp [DIC_step, if_pos (hne w (by simp)), hs w (by simp)]
    rw [List.foldl_cons, hw,
      DIC_fold_fail rest a (b - 1) (fun x hx => hne x (by simp [hx]))
        (fun x hx => hs x (by simp [hx]))]
    simp
    ring

lemma erase_forall_ne {l : List String} {a : String} (h : l.count a = 1) :
    ∀ w ∈ l.erase a, w ≠ a := by
  intro w hw hwa
  subst hwa
  have h0 : (l.erase w).count w = 0 := by
    rw [List.count_erase_self, h]
  exact absurd (List.count_pos_iff.mpr hw) (by omega)

lemma CV_fold_fit_fail {α Model : Type} {s : MS α} {tr : Trainer α Model}
    {n : ℕ} (h : tr.fit s.X s.lengths n = none) :
    ∀ (l : List (List ℕ × List ℕ)) (acc : ℚ × ℕ),
      l.foldl (CV_step s tr n) acc = acc
  | [], _ => rfl
  | fold :: rest, acc => by
    have hstep : CV_step s tr n acc fold = acc := by
      simp [CV_step, MS.base_model, h]
    rw [List.foldl_cons, hstep]
    exact CV_fold_fit_fail h rest acc

lemma CV_candidate_of_fit_fail {α Model : Type} {s : MS α}
    {tr : Trainer α Model} {n : ℕ} (h : tr.fit s.X s.lengths n = none) :
    CV_candidate s tr n = none := by
  unfold CV_candidate
  by_cases hlen : s.sequences.length < 3
  · rw [if_pos hlen]
  · rw [if_neg hlen, CV_fold_fit_fail h]
    simp

lemma guess_success {α Model : Type} {tr : Trainer α Model} {X : List α}
    {l : List ℕ} {models : List (String × Model)} {w : String}
    (h : (scoreItem tr X l models ⊥ none).2 = some w) :
    ∃ m, (w, m) ∈ models ∧ tr.score m X l ≠ none := by
  rw [scoreItem_snd] at h
  by_cases hb : maxVals tr X l models ≤ ⊥
  · rw [if_pos hb] at h
    exact absurd h (by simp)
  · rw [if_neg hb] at h
    obtain ⟨p, hfind, hpw⟩ := Option.map_eq_some'.mp h
    have hmem := List.mem_of_find?_eq_some hfind
    have hpred' := List.find?_some hfind
    simp only [decide_eq_true_eq] at hpred'
    have hpred : scoreVal tr X l p = maxVals tr X l models := hpred'
    have hMbot : maxVals tr X l models ≠ ⊥ := fun hbot => hb (le_of_eq hbot)
    cases hsc : tr.score p.2 X l with
    | none =>
      have : scoreVal tr X l p = ⊥ := by simp [scoreVal, hsc]
      exact absurd (hpred ▸ this).symm (Ne.symm hMbot)
    | some v =>
      obtain ⟨pw, pm⟩ := p
      subst hpw
      exact ⟨pm, hmem, by simp [hsc]⟩

lemma guess_none_of_all_fail {α Model : Type} {tr : Trainer α Model}
    {X : List α} {l : List ℕ} {models : List (String × Model)}
    (h : ∀ p ∈ models, tr.score p.2 X l = none) :
    (scoreItem tr X l models ⊥ none).2 = none := by
  rw [scoreItem_snd, maxVals_eq_bot_of_all_fail h, if_pos le_rfl]

/-!
## Claim theorems
-/

/-- C1 (code bug evidence): on the concrete class `msCV` (three one-frame
sequences `[1]`, `[2]`, `[3]`) with the oracle `trSum` (fitted model
`sum(X) + n`, score `100·model + sum(X)`), the code's CV value for
candidate `n = 2` is `804`: every fold's model is `base_model(2)`, fit on
the *full* class data (`sum = 6`, model `8`), and it is scored on the
*training* fold's concatenation (`cv_test` is never used), giving
`(805 + 804 + 803)/3`.  The spec's computation — fit on the training fold,
score the held-out fold under that fold-specific model — gives
`(701 + 602 + 503)/3 = 602`.  The two disagree, so the accumulated score
is neither fit on the training fold only nor scored on the held-out
fold. -/
theorem C1_cv_scores_training_fold_under_full_fit :
    CV_candidate msCV trSum 2 = some 804
      ∧ CV_candidate_specified msCV trSum 2 = some 602
      ∧ CV_candidate msCV trSum 2 ≠ CV_candidate_specified msCV trSum 2 := by
  have h1 : CV_candidate msCV trSum 2 = some 804 := by
    simp [CV_candidate, CV_step, kfold3, combine_sequences, msCV, trSum,
      MS.base_model, List.range_succ]
    norm_num
  have h2 : CV_candidate_specified msCV trSum 2 = some 602 := by
    simp [CV_candidate_specified, kfold3, combine_sequences, msCV, trSum,
      List.range_succ]
    norm_num
  refine ⟨h1, h2, ?_⟩
  rw [h1, h2]
  intro h
  exact absurd (Option.some.inj h) (by norm_num)

/-- C2 (counterexample): on the concrete two-word dataset `msAB` with the
oracle `trSq` (fitted model `sum(X) + n`, score `model² + sum(X)`), the
code's DIC value for candidate `n = 2` is `10 - 18/1 = -8`: the other word
`"B"`'s data is scored under *its own* model fit at `n`
(`fit([2], 2) = 4`, score `4² + 2 = 18`).  Scoring `"B"`'s data under the
*target* word's model, as the claim states (`fit([1], 2) = 3`, score
`3² + 2 = 11`), would give `10 - 11/1 = -1`.  The claim's description of
the accumulated anti-likelihood is therefore false on the code. -/
theorem C2_counterexample :
    DIC_candidate msAB trSq 2 = some (-8)
      ∧ DIC_candidate_claimed msAB trSq 2 = some (-1)
      ∧ DIC_candidate msAB trSq 2 ≠ DIC_candidate_claimed msAB trSq 2 := by
  have h1 : DIC_candidate msAB trSq 2 = some (-8) := by
    simp [DIC_candidate, DIC_step, crossScore, msAB, trSq, MS.base_model,
      List.lookup]
    norm_num
  have h2 : DIC_candidate_claimed msAB trSq 2 = some (-1) := by
    simp [DIC_candidate_claimed, msAB, trSq, MS.base_model, List.lookup]
    norm_num
  refine ⟨h1, h2, ?_⟩
  rw [h1, h2]
  intro h
  exact absurd (Option.some.inj h) (by norm_num)

/-- C5: in `recognize`, the best guess is tracked with a strict
greater-than comparison against the running maximum (started at
`float("-inf")`), so for every test item the reported guess is the *first*
class in the model map's iteration order whose recorded value equals the
maximal recorded value — later classes with an equal score never overwrite
it — and the guess is absent when no class scores successfully. -/
theorem C5_first_max_wins {α Model : Type} (models : List (String × Model))
    (tr : Trainer α Model) (items : List (List α × List ℕ)) :
    (recognize models tr items).2 = items.map (fun it =>
      if maxVals tr it.1 it.2 models = ⊥ then none
      else (models.find?
        (fun p =>
          decide (scoreVal tr it.1 it.2 p = maxVals tr it.1 it.2 models))).map
            Prod.fst) := by
  unfold recognize
  simp only [List.map_map]
  refine List.map_congr_left (fun it _ => ?_)
  show (scoreItem tr it.1 it.2 models ⊥ none).2 = _
  rw [scoreItem_snd]
  simp only [le_bot_iff]

/-- C9: `SelectorConstant.select()` ignores the candidate range entirely
(replacing `min_n_components`/`max_n_components` by anything does not
change the result) and returns the single fit at exactly the configured
default state count `n_constant`. -/
theorem C9_constant_ignores_range {α Model : Type} (s : MS α)
    (tr : Trainer α Model) (a b : ℕ) :
    selectConstant { s with min_n := a, max_n := b } tr
      = tr.fit s.X s.lengths s.n_constant :=
  rfl

/-- C3: `SelectorBIC` computes, for every candidate `n` whose fit and score
succeed, exactly `BIC(n) = -2·logL + p(n)·ln(N)` with `N` the number of
frames of the class (`len(self.X)`), `d = model.n_features` and
`p(n) = n² + 2·d·n − 1`; and `select()` returns the stored model of the
candidate with the strictly minimal BIC among the candidates that did not
fail. -/
theorem C3_bic_formula_and_min_selection {α Model : Type} :
    (∀ (s : MS α) (tr : Trainer α Model) (npLog : ℕ → ℚ) (n : ℕ) (m : Model)
        (logL : ℚ),
      s.base_model tr n = some m →
      tr.score m s.X s.lengths = some logL →
      BIC_score s tr npLog n
        = some (-2 * logL
            + ((n : ℚ) ^ 2 + 2 * (tr.n_features m : ℚ) * (n : ℚ) - 1)
              * npLog s.X.length, m))
    ∧ (∀ (s : MS α) (tr : Trainer α Model) (npLog : ℕ → ℚ) (b : ℕ) (v : ℚ)
        (m : Model),
      b ∈ s.candidates →
      BIC_score s tr npLog b = some (v, m) →
      (∀ n ∈ s.candidates, n ≠ b → ∀ p, BIC_score s tr npLog n = some p →
        v < p.1) →
      selectBIC s tr npLog = some m) := by
  constructor
  · intro s tr npLog n m logL h1 h2
    simp only [BIC_score, h1, h2]
  · intro s tr npLog b v m hb hfb hlt
    unfold selectBIC selectBICOn
    rw [sweepMin_argmin hb hfb hlt]

/-- Witness for C3 on the concrete fixture `msAB`/`trSq`/`LQ`: the formula
holds at `n = 2` (model `3`, log-likelihood `10`), and the sweep selects
the model of `n = 3`, whose BIC `-14` strictly beats `n = 2`'s `-9`. -/
theorem C3_witness :
    BIC_score msAB trSq LQ 2
      = some (-2 * 10
          + (((2 : ℕ) : ℚ) ^ 2 + 2 * ((trSq.n_features 3 : ℕ) : ℚ)
              * ((2 : ℕ) : ℚ) - 1) * LQ msAB.X.length, 3)
    ∧ selectBIC msAB trSq LQ = some 4 := by
  constructor
  · refine C3_bic_formula_and_min_selection.1 msAB trSq LQ 2 3 10 ?_ ?_
    · show trSq.fit msAB.X msAB.lengths 2 = some 3
      simp [msAB, trSq]
      norm_num
    · simp [msAB, trSq]
      norm_num
  · refine C3_bic_formula_and_min_selection.2 msAB trSq LQ 3 (-14) 4
      (by decide) ?_ ?_
    · simp [BIC_score, MS.base_model, msAB, trSq, LQ]
      norm_num
    · intro n hn hne p hp
      have hc : msAB.candidates = [2, 3] := rfl
      rw [hc] at hn
      simp at hn
      rcases hn with h2 | h3
      · subst h2
        have hval : BIC_score msAB trSq LQ 2 = some (-9, 3) := by
          simp [BIC_score, MS.base_model, msAB, trSq, LQ]
          norm_num
        rw [hval] at hp
        cases hp
        norm_num
      · exact absurd h3 hne

/-- C4: every selector variant is a total function (the embedding never
raises); when every candidate in the range fails, each variant returns the
fallback fit at `n_constant` (`base_model`, which itself returns the
`None` sentinel when even that fit fails); `SelectorConstant` is the
fallback itself. -/
theorem C4_fallback_policy {α Model : Type} :
    (∀ (s : MS α) (tr : Trainer α Model),
      selectConstant s tr = s.base_model tr s.n_constant)
    ∧ (∀ (s : MS α) (tr : Trainer α Model) (npLog : ℕ → ℚ),
      (∀ n ∈ s.candidates, BIC_score s tr npLog n = none) →
      selectBIC s tr npLog = s.base_model tr s.n_constant)
    ∧ (∀ (s : MS α) (tr : Trainer α Model),
      (∀ n ∈ s.candidates, DIC_candidate s tr n = none) →
      selectDIC s tr = s.base_model tr s.n_constant)
    ∧ (∀ (s : MS α) (tr : Trainer α Model),
      (∀ n ∈ s.candidates, CV_candidate s tr n = none) →
      selectCV s tr = s.base_model tr s.n_constant) := by
  refine ⟨fun s tr => rfl, fun s tr npLog h => ?_, fun s tr h => ?_,
    fun s tr h => ?_⟩
  · unfold selectBIC selectBICOn
    rw [sweepMin_eq_none h]
  · unfold selectDIC selectDICOn
    rw [sweepMax_eq_none h]
  · unfold selectCV selectCVOn
    rw [sweepMax_eq_none h]

/-- Witness for C4 on `msAB1` (default state count 1) with `trOnly1`
(fit succeeds only at state count 1): every candidate in `[2, 3]` fails,
and each selector returns the fallback fit at `n_constant`. -/
theorem C4_witness :
    selectConstant msAB1 trOnly1 = msAB1.base_model trOnly1 msAB1.n_constant
    ∧ selectBIC msAB1 trOnly1 LQ = msAB1.base_model trOnly1 msAB1.n_constant
    ∧ selectDIC msAB1 trOnly1 = msAB1.base_model trOnly1 msAB1.n_constant
    ∧ selectCV msAB1 trOnly1 = msAB1.base_model trOnly1 msAB1.n_constant := by
  have hcands : msAB1.candidates = [2, 3] := rfl
  refine ⟨C4_fallback_policy.1 msAB1 trOnly1,
    C4_fallback_policy.2.1 msAB1 trOnly1 LQ ?_,
    C4_fallback_policy.2.2.1 msAB1 trOnly1 ?_,
    C4_fallback_policy.2.2.2 msAB1 trOnly1 ?_⟩
  · intro n hn
    rw [hcands] at hn
    simp at hn
    rcases hn with h | h <;> subst h <;> rfl
  · intro n hn
    rw [hcands] at hn
    simp at hn
    rcases hn with h | h <;> subst h <;> rfl
  · intro n hn
    rw [hcands] at hn
    simp at hn
    rcases hn with h | h <;> subst h <;> rfl

/-- C2 (amended): in `SelectorDIC.select()`, for each candidate `n` whose
own-class fit and score succeed, the anti-likelihood term scores each other
class's data under a model fit at `n` on *that other class's own data*
(not under the target class's model); when every cross-score succeeds,
`DIC(n) = log_P_X_i − (Σ cross-scores)/(M − 1)` with `M` the total class
count (and the candidate raises, i.e. fails, when `M − 1 = 0`); selection
returns the model re-fit at the `n` with the strictly maximal DIC. -/
theorem C2_amended_dic_uses_other_words_own_models {α Model : Type} :
    (∀ (s : MS α) (tr : Trainer α Model) (n : ℕ) (m : Model) (logP : ℚ)
        (g : String → ℚ),
      s.base_model tr n = some m →
      tr.score m s.X s.lengths = some logP →
      (s.words.map Prod.fst).count s.this_word = 1 →
      (∀ w ∈ (s.words.map Prod.fst).erase s.this_word,
        crossScore s tr w n = some (g w)) →
      DIC_candidate s tr n =
        (if ((s.words.map Prod.fst).length : ℤ) - 1 = 0 then none
         else some (logP
           - (((s.words.map Prod.fst).erase s.this_word).map g).sum
             / ((((s.words.map Prod.fst).length : ℤ) - 1 : ℤ) : ℚ))))
    ∧ (∀ (s : MS α) (tr : Trainer α Model) (b : ℕ) (v : ℚ),
      b ∈ s.candidates →
      DIC_candidate s tr b = some v →
      (∀ n ∈ s.candidates, n ≠ b → ∀ w, DIC_candidate s tr n = some w →
        w < v) →
      selectDIC s tr = s.base_model tr b) := by
  constructor
  · intro s tr n m logP g h1 h2 hcount hcross
    have hmem : s.this_word ∈ s.words.map Prod.fst :=
      List.count_pos_iff.mp (by omega)
    have hfold := DIC_fold_success ((s.words.map Prod.fst).erase s.this_word)
      0 ((s.words.map Prod.fst).length : ℤ) (erase_forall_ne hcount) hcross
    simp only [DIC_candidate, h1, h2, hmem, if_true, hfold, zero_add]
  · intro s tr b v hb hfb hlt
    unfold selectDIC selectDICOn
    rw [sweepMax_argmax hb hfb hlt]

/-- Witness for C2's amended statement on `msAB`/`trSq`: at `n = 2` the
target's own score is `10`, the single other word `"B"` contributes its
own-model cross-score `18`, so `DIC(2) = 10 − 18/1 = −8`, which strictly
beats `DIC(3) = −10`, and `select()` re-fits at the winner `2`. -/
theorem C2_amended_witness :
    DIC_candidate msAB trSq 2 =
      (if ((msAB.words.map Prod.fst).length : ℤ) - 1 = 0 then none
       else some ((10 : ℚ)
         - (((msAB.words.map Prod.fst).erase msAB.this_word).map
             (fun _ => (18 : ℚ))).sum
           / ((((msAB.words.map Prod.fst).length : ℤ) - 1 : ℤ) : ℚ)))
    ∧ selectDIC msAB trSq = msAB.base_model trSq 2 := by
  constructor
  · refine C2_amended_dic_uses_other_words_own_models.1 msAB trSq 2 3 10
      (fun _ => (18 : ℚ)) ?_ ?_ (by decide) ?_
    · show trSq.fit msAB.X msAB.lengths 2 = some 3
      simp [msAB, trSq]
      norm_num
    · simp [msAB, trSq]
      norm_num
    · intro w hw
      have hw' : w = "B" := by
        have he : (msAB.words.map Prod.fst).erase msAB.this_word = ["B"] := by
          decide
        rw [he] at hw
        simpa using hw
      subst hw'
      simp [crossScore, msAB, trSq, List.lookup]
      norm_num
  · refine C2_amended_dic_uses_other_words_own_models.2 msAB trSq 2 (-8)
      (by decide) ?_ ?_
    · simp [DIC_candidate, DIC_step, crossScore, msAB, trSq, MS.base_model,
        List.lookup]
      norm_num
    · intro n hn hne w hw
      have hc : msAB.candidates = [2, 3] := rfl
      rw [hc] at hn
      simp at hn
      rcases hn with h2 | h3
      · exact absurd h2 hne
      · subst h3
        have hval : DIC_candidate msAB trSq 3 = some (-10) := by
          simp [DIC_candidate, DIC_step, crossScore, msAB, trSq, MS.base_model,
            List.lookup]
          norm_num
        rw [hval] at hw
        cases hw
        norm_num

/-- C6: for every test item, `recognize`'s per-item mapping has one entry
per class of the model map, in map order — the log-likelihood on success
and `float("-inf")` (`⊥`) when scoring fails; a class whose scoring failed
never becomes the best guess (a guess always names a class whose scoring
succeeded); and when scoring fails for every class the item's guess is
absent (`None`). -/
theorem C6_recognizer_failure_handling {α Model : Type} :
    (∀ (models : List (String × Model)) (tr : Trainer α Model)
        (items : List (List α × List ℕ)),
      (recognize models tr items).1
        = items.map (fun it =>
            models.map (fun p => (p.1, scoreVal tr it.1 it.2 p))))
    ∧ (∀ (models : List (String × Model)) (tr : Trainer α Model)
        (items : List (List α × List ℕ)) (i : ℕ) (w : String),
      (recognize models tr items).2[i]? = some (some w) →
      ∃ X l m, items[i]? = some (X, l) ∧ (w, m) ∈ models
        ∧ tr.score m X l ≠ none)
    ∧ (∀ (models : List (String × Model)) (tr : Trainer α Model)
        (items : List (List α × List ℕ)) (i : ℕ) (X : List α) (l : List ℕ),
      items[i]? = some (X, l) →
      (∀ p ∈ models, tr.score p.2 X l = none) →
      (recognize models tr items).2[i]? = some none) := by
  refine ⟨?_, ?_, ?_⟩
  · intro models tr items
    unfold recognize
    simp only [List.map_map]
    exact List.map_congr_left (fun it _ => scoreItem_fst tr it.1 it.2 models ⊥ none)
  · intro models tr items i w h
    have h2 : (recognize models tr items).2
        = items.map (fun it => (scoreItem tr it.1 it.2 models ⊥ none).2) := by
      unfold recognize
      simp [List.map_map]
    rw [h2, List.getElem?_map] at h
    cases hit : items[i]? with
    | none => rw [hit] at h; exact absurd h (by simp)
    | some it =>
      rw [hit] at h
      simp only [Option.map_some'] at h
      obtain ⟨m, hm, hs⟩ := guess_success (Option.some.inj h)
      refine ⟨it.1, it.2, m, ?_, hm, hs⟩
      rfl
  · intro models tr items i X l hit hall
    have h2 : (recognize models tr items).2
        = items.map (fun it => (scoreItem tr it.1 it.2 models ⊥ none).2) := by
      unfold recognize
      simp [List.map_map]
    rw [h2, List.getElem?_map, hit]
    simp only [Option.map_some']
    exact congrArg some (guess_none_of_all_fail hall)

/-- Witness for C6 on the model map `modelsRec` (`"D"` fails to score):
the reported guess `"B"` for the single test item names a class whose
scoring succeeded. -/
theorem C6_witness :
    ∃ (X : List ℚ) (l : List ℕ) (m : ℚ),
      ([([1], [1])] : List (List ℚ × List ℕ))[0]? = some (X, l)
        ∧ ("B", m) ∈ modelsRec ∧ trRec.score m X l ≠ none := by
  refine C6_recognizer_failure_handling.2.1 modelsRec trRec [([1], [1])] 0 "B" ?_
  have h1 : (⊥ : WithBot ℚ) < 5 := bot_lt_iff_ne_bot.mpr (by simp)
  have h2 : (5 : WithBot ℚ) < 7 := by
    rw [show (5 : WithBot ℚ) = ((5 : ℚ) : WithBot ℚ) by norm_cast,
      show (7 : WithBot ℚ) = ((7 : ℚ) : WithBot ℚ) by norm_cast,
      WithBot.coe_lt_coe]
    norm_num
  have h3 : ¬ ((7 : WithBot ℚ) < 7) := lt_irrefl _
  norm_num [recognize, scoreItem, modelsRec, trRec, h1, h2, h3]

/-- C7: in `SelectorDIC.select()`, when every other class's cross-score
fails for some candidate `n`, the divisor `M − 1` reaches `0` and the
`ZeroDivisionError` is caught by the candidate's `except`: the candidate
evaluates to `none` (excluded from the comparison pool), and the sweep over
the candidate range equals the sweep with `n` removed, so `select()`
proceeds through the normal selection/fallback path. -/
theorem C7_dic_zero_divisor_candidate_excluded {α Model : Type} :
    ∀ (s : MS α) (tr : Trainer α Model) (n : ℕ),
      (s.words.map Prod.fst).count s.this_word = 1 →
      (∀ w ∈ (s.words.map Prod.fst).erase s.this_word,
        crossScore s tr w n = none) →
      DIC_candidate s tr n = none
      ∧ sweepMax (DIC_candidate s tr) s.candidates
          = sweepMax (DIC_candidate s tr)
              (s.candidates.filter (fun k => decide (k ≠ n))) := by
  intro s tr n hcount hfail
  have hnone : DIC_candidate s tr n = none := by
    cases h1 : s.base_model tr n with
    | none => simp [DIC_candidate, h1]
    | some m =>
      cases h2 : tr.score m s.X s.lengths with
      | none => simp [DIC_candidate, h1, h2]
      | some logP =>
        have hmem : s.this_word ∈ s.words.map Prod.fst :=
          List.count_pos_iff.mp (by omega)
        have hM : 1 ≤ (s.words.map Prod.fst).length :=
          List.length_pos_of_mem hmem
        have hlen : ((s.words.map Prod.fst).erase s.this_word).length
            = (s.words.map Prod.fst).length - 1 := List.length_erase_of_mem hmem
        have hfold := DIC_fold_fail ((s.words.map Prod.fst).erase s.this_word)
          0 ((s.words.map Prod.fst).length : ℤ) (erase_forall_ne hcount) hfail
        have hdiv : ((s.words.map Prod.fst).length : ℤ)
            - (((s.words.map Prod.fst).erase s.this_word).length : ℤ) - 1 = 0 := by
          rw [hlen, Nat.cast_sub hM]
          ring
        simp only [DIC_candidate, h1, h2, hmem, if_true, hfold]
        rw [if_pos hdiv]
  exact ⟨hnone, sweepMax_filter hnone s.candidates⟩

/-- Witness for C7 on `msC7` (word `"B"`'s concatenated data is missing
from `hwords`, so its cross-score always fails): candidate `n = 2` is
excluded and the sweep is unchanged by removing it. -/
theorem C7_witness :
    DIC_candidate msC7 trSq 2 = none
    ∧ sweepMax (DIC_candidate msC7 trSq) msC7.candidates
        = sweepMax (DIC_candidate msC7 trSq)
            (msC7.candidates.filter (fun k => decide (k ≠ 2))) := by
  refine C7_dic_zero_divisor_candidate_excluded msC7 trSq 2 (by decide) ?_
  intro w hw
  have he : (msC7.words.map Prod.fst).erase msC7.this_word = ["B"] := by decide
  rw [he] at hw
  have hw' : w = "B" := by simpa using hw
  subst hw'
  rfl

/-- C8: for each sweeping selector (BIC, DIC, CV), a trainer that fails for
one specific state count `n0` yields exactly the same selection result as
running the sweep with `n0` absent from the candidate list; and
`SelectorConstant` ignores the candidate range altogether.  One failing
candidate neither aborts the sweep nor changes which surviving candidate
wins. -/
theorem C8_failed_candidate_equals_absent {α Model : Type} :
    ∀ (s : MS α) (tr : Trainer α Model) (npLog : ℕ → ℚ) (n0 : ℕ)
      (cands : List ℕ),
      (∀ X l, tr.fit X l n0 = none) →
      selectBICOn s tr npLog cands
          = selectBICOn s tr npLog (cands.filter (fun k => decide (k ≠ n0)))
      ∧ selectDICOn s tr cands
          = selectDICOn s tr (cands.filter (fun k => decide (k ≠ n0)))
      ∧ selectCVOn s tr cands
          = selectCVOn s tr (cands.filter (fun k => decide (k ≠ n0)))
      ∧ (∀ a b, selectConstant { s with min_n := a, max_n := b } tr
          = selectConstant s tr) := by
  intro s tr npLog n0 cands hfail
  have hB : BIC_score s tr npLog n0 = none := by
    simp [BIC_score, MS.base_model, hfail]
  have hD : DIC_candidate s tr n0 = none := by
    simp [DIC_candidate, MS.base_model, hfail]
  have hC : CV_candidate s tr n0 = none := CV_candidate_of_fit_fail (hfail _ _)
  refine ⟨?_, ?_, ?_, fun a b => rfl⟩
  · unfold selectBICOn
    rw [sweepMin_filter hB]
  · unfold selectDICOn
    rw [sweepMax_filter hD]
  · unfold selectCVOn
    rw [sweepMax_filter hC]

/-- Witness for C8 on `msAB` with `trNot2` (fit fails exactly at state
count 2): sweeping `[2, 3]` gives the same result as sweeping `[3]`, for
all three sweeping selectors, and the constant selector ignores the
range. -/
theorem C8_witness :
    selectBICOn msAB trNot2 LQ [2, 3]
        = selectBICOn msAB trNot2 LQ ([2, 3].filter (fun k => decide (k ≠ 2)))
    ∧ selectDICOn msAB trNot2 [2, 3]
        = selectDICOn msAB trNot2 ([2, 3].filter (fun k => decide (k ≠ 2)))
    ∧ selectCVOn msAB trNot2 [2, 3]
        = selectCVOn msAB trNot2 ([2, 3].filter (fun k => decide (k ≠ 2)))
    ∧ (∀ a b, selectConstant { msAB with min_n := a, max_n := b } trNot2
        = selectConstant msAB trNot2) :=
  C8_failed_candidate_equals_absent msAB trNot2 LQ 2 [2, 3] (fun _ _ => rfl)

/-- C10: `SelectorDIC.select()` and `SelectorCV.select()` do not return the
model fitted during the candidate sweep — lines 144–147 and 183–186 perform
one fresh `base_model` invocation at the winning state count.  When the
sweep identified a best candidate but that final re-fit invocation fails,
`select()` returns the `None` sentinel directly, without attempting the
`n_constant` fallback. -/
theorem C10_refit_failure_returns_none {α Model : Type} :
    (∀ (s : MS α) (tq : TrainerSeq α Model) (v : ℚ) (bn k : ℕ),
      sweepDIC_seq s tq s.candidates = (some (v, bn), k) →
      tq.fitAt k s.X s.lengths bn = none →
      selectDIC_seq s tq = none)
    ∧ (∀ (s : MS α) (tq : TrainerSeq α Model) (v : ℚ) (bn k : ℕ),
      sweepCV_seq s tq s.candidates = (some (v, bn), k) →
      tq.fitAt k s.X s.lengths bn = none →
      selectCV_seq s tq = none) := by
  constructor
  · intro s tq v bn k h1 h2
    unfold selectDIC_seq
    rw [h1]
    exact h2
  · intro s tq v bn k h1 h2
    unfold selectCV_seq
    rw [h1]
    exact h2

/-- Witness for C10: on `msAB` with `tqAB` the DIC sweep succeeds (best
DIC `-8` at `n = 2`, next invocation counter 4) but the fifth fit
invocation — the final re-fit — fails, so `select()` yields `None`; on
`msCV` with `tqCV` the CV sweep succeeds (mean `804` at `n = 2`, counter
3) and the fourth invocation fails likewise. -/
theorem C10_witness :
    selectDIC_seq msAB tqAB = none ∧ selectCV_seq msCV tqCV = none := by
  constructor
  · refine C10_refit_failure_returns_none.1 msAB tqAB (-8) 2 4 ?_ rfl
    rw [show msAB.candidates = [2, 3] from rfl]
    simp [sweepDIC_seq, DIC_candidate_seq, crossScoreAt, msAB, tqAB,
      List.lookup]
    norm_num
  · refine C10_refit_failure_returns_none.2 msCV tqCV 804 2 3 ?_ rfl
    rw [show msCV.candidates = [2] from rfl]
    simp [sweepCV_seq, CV_candidate_seq, combine_sequences, kfold3, msCV,
      tqCV, List.range_succ]
    norm_num
